import Mathlib

/-!
Shallow embedding of the change-detection and duplicate-suppression core of the
Apache Answers / Power Automate bridge:

* `checkForNewPostsPure` — the baseline-tracking new-post detector of
  `src/services/answersApi.ts` (`AnswersApiService.checkForNewPosts`), with the
  mutable field `lastCheckedPostId : string | null` made an explicit
  `Option String` argument and result.
* `trackSentQuestion`, `isDuplicateMessage`, `clearOldQuestions` — the
  sent-message duplicate tracker of `src/services/sentQuestionsTracker.ts`,
  with the `Map<string, SentQuestion>` store embedded as an insertion-ordered
  association list and `Date.now()` made an explicit argument.
* `findChannelsForPost`, `sendPostToTeams`, `processNewPosts` — the per-post
  loop of `src/monitor.ts` (`PostMonitor.checkForNewPosts`) together with the
  channel selection and tracking of `src/services/teamsService.ts`
  (`TeamsService.sendPostToTeams`), on its success path, instrumented so that
  each outbound chat delivery and each `trackSentQuestion` call is collected
  in the result.
* `cleanupDecision` — the periodic-cleanup gate of `src/monitor.ts`.

Timestamps are epoch milliseconds (`Int`, as produced by `Date.now()` and
`Date.prototype.getTime`); `created_at` of a post is epoch seconds (`Nat`).
-/

namespace AnswersBridge

set_option maxRecDepth 10000

/-- A post tag as delivered by the Apache Answers API
(`src/types/answers.ts`, the fields the core reads). -/
structure AnswerTag where
  display_name : String
  slug_name : String
deriving DecidableEq, Repr

/-- An Apache Answers post (`src/types/answers.ts`, `AnswerPost`),
restricted to the fields the change-detection core reads. -/
structure AnswerPost where
  id : String
  title : String
  description : String
  created_at : Nat
  operatorUsername : String
  tags : List AnswerTag
deriving DecidableEq, Repr

/-! ## New-post detector (`AnswersApiService.checkForNewPosts`) -/

/-- Models `recentPosts[0]?.id || null` of `answersApi.ts`: JavaScript
`x || null` collapses the empty string (falsy) to `null`. -/
def jsOrNull : Option String → Option String
  | none => none
  | some s => if s = "" then none else some s

/-- The `for (const post of recentPosts) { if (post.id === baseline) break;
newPosts.push(post); }` loop of `checkForNewPosts`: collect posts until the
baseline id is met (exclusive) or the page is exhausted. -/
def collectNewPosts (baseline : String) : List AnswerPost → List AnswerPost
  | [] => []
  | post :: rest =>
    if post.id = baseline then [] else post :: collectNewPosts baseline rest

/-- State-passing form of `AnswersApiService.checkForNewPosts`
(`src/services/answersApi.ts`): takes the current `lastCheckedPostId` and the
fetched newest-first page, returns the reported new posts and the updated
`lastCheckedPostId`.  The guard `if (!this.lastCheckedPostId)` is JavaScript
truthiness on `string | null`, so both `null` and the empty string take the
cold-start branch.  In the advance branch the source reads
`recentPosts[0].id`, which is safe there because `newPosts` is a non-empty
sublist of `recentPosts`; `(recentPosts.head?).map AnswerPost.id` renders it. -/
def checkForNewPostsPure :
    Option String → List AnswerPost → List AnswerPost × Option String
  | none, recentPosts => ([], jsOrNull ((recentPosts.head?).map AnswerPost.id))
  | some baseline, recentPosts =>
    if baseline = "" then
      ([], jsOrNull ((recentPosts.head?).map AnswerPost.id))
    else
      let newPosts := collectNewPosts baseline recentPosts
      if newPosts.length > 0 then
        (newPosts, (recentPosts.head?).map AnswerPost.id)
      else
        (newPosts, some baseline)

/-! ## Sent-message duplicate tracker (`SentQuestionsTracker`) -/

/-- A tracked sent notification (`src/services/sentQuestionsTracker.ts`,
interface `SentQuestion`); `sentAt` is epoch milliseconds. -/
structure SentQuestion where
  id : String
  title : String
  sentAt : Int
  teamsMessageId : Option String
deriving DecidableEq, Repr

/-- The tracker's `Map<string, SentQuestion>` as an insertion-ordered
association list with (invariantly) unique keys, matching JavaScript `Map`
iteration order. -/
abbrev SentStore := List (String × SentQuestion)

/-- JavaScript `Map.prototype.set`: overwrite in place when the key exists,
otherwise append at the end of the iteration order. -/
def mapSet (store : SentStore) (k : String) (v : SentQuestion) : SentStore :=
  if store.any (fun p => p.1 == k) then
    store.map (fun p => if p.1 == k then (k, v) else p)
  else
    store ++ [(k, v)]

/-- JavaScript `Map.prototype.delete`. -/
def mapDelete (store : SentStore) (k : String) : SentStore :=
  store.filter (fun p => !(p.1 == k))

/-- JavaScript `Map.prototype.get` (with `undefined` as `none`). -/
def mapGet (store : SentStore) (k : String) : Option SentQuestion :=
  (store.find? (fun p => p.1 == k)).map Prod.snd

/-- `private readonly maxStoredQuestions = 100` of `sentQuestionsTracker.ts`. -/
def maxStoredQuestions : Nat := 100

/-- The entry selected by
`Array.from(map.entries()).sort((a, b) => a.sentAt - b.sentAt)[0]`
in `trackSentQuestion`: since the sort is stable, index 0 of the sorted array
is the first entry (in iteration order) attaining the minimal `sentAt`. -/
def oldestEntry : SentStore → Option (String × SentQuestion)
  | [] => none
  | e :: rest =>
    some (rest.foldl (fun acc p => if p.2.sentAt < acc.2.sentAt then p else acc) e)

/-- The trailing cleanup of `trackSentQuestion`: `if (this.sentQuestions.size >
this.maxStoredQuestions)` delete the key of the oldest entry by `sentAt`
(the `none` arm is unreachable, as an over-cap store is non-empty). -/
def evictIfOverCap (store1 : SentStore) : SentStore :=
  if store1.length > maxStoredQuestions then
    match oldestEntry store1 with
    | some oldest => mapDelete store1 oldest.1
    | none => store1
  else
    store1

/-- State-passing form of `SentQuestionsTracker.trackSentQuestion`
(`src/services/sentQuestionsTracker.ts`): insert/overwrite the entry for
`post.id` with `sentAt = now`; then, if the store size exceeds
`maxStoredQuestions`, delete the oldest entry by `sentAt`. -/
def trackSentQuestion (store : SentStore) (post : AnswerPost) (now : Int)
    (teamsMessageId : Option String) : SentStore :=
  evictIfOverCap (mapSet store post.id
    { id := post.id, title := post.title, sentAt := now,
      teamsMessageId := teamsMessageId })

/-- The `10 * 60 * 1000` millisecond relevance window of
`isDuplicateMessage`. -/
def duplicateWindowMs : Int := 10 * 60 * 1000

/-- JavaScript `String.prototype.includes`: substring containment, modelled as
infix containment of the character lists ( `String.data` ). -/
def strIncludes (s pat : String) : Bool := decide (pat.toList <:+: s.toList)

/-- State-passing form of `SentQuestionsTracker.isDuplicateMessage`
(`src/services/sentQuestionsTracker.ts`): early `false` on an empty store;
otherwise iterate the entries, skip (`continue`) any whose `sentAt` is more
than ten minutes before `now`, and return `true` at the first remaining entry
whose stored title is contained in `messageContent`.  The source only logs
`messageTitle`; it takes no part in the decision. -/
def isDuplicateMessage (store : SentStore) (now : Int)
    (messageTitle messageContent : String) : Bool :=
  if store.length = 0 then
    false
  else
    store.any (fun p =>
      if now - p.2.sentAt > duplicateWindowMs then false
      else strIncludes messageContent p.2.title)

/-- The `60 * 60 * 1000` millisecond horizon of `clearOldQuestions`. -/
def oneHourMs : Int := 60 * 60 * 1000

/-- State-passing form of `SentQuestionsTracker.clearOldQuestions`
(`src/services/sentQuestionsTracker.ts`): iterate over the entries and delete
every key whose entry has `sentAt < now - oneHourMs` (the loop body `if
(sentQuestion.sentAt.getTime() < oneHourAgo) this.sentQuestions.delete(...)`,
with the iteration rendered as a fold over the initial entry list, which is
sound because JavaScript `Map` iteration visits exactly the entries present
when iteration starts minus those already deleted). -/
def clearOldQuestions (store : SentStore) (now : Int) : SentStore :=
  store.foldl
    (fun acc p => if p.2.sentAt < now - oneHourMs then mapDelete acc p.1 else acc)
    store

/-! ## Monitor cycle (`PostMonitor.checkForNewPosts` and
`TeamsService.sendPostToTeams`) -/

/-- A Teams channel mapping (`src/config/config.ts`, `ChannelMapping`). -/
structure ChannelMapping where
  tags : List String
  webhookUrl : String
  channelName : String
deriving DecidableEq, Repr

/-- The `config.teams` block consulted by `TeamsService`
(`src/config/config.ts`): the tag-mapped channels and the optional default
channel. -/
structure TeamsConfig where
  defaultChannel : Option ChannelMapping
  channels : List ChannelMapping
deriving DecidableEq, Repr

/-- The loop-breaker tag test of `PostMonitor.checkForNewPosts`
(`src/monitor.ts`): `post.tags.some((tag) => tag.slug_name === "from_teams")`. -/
def hasFromTeamsTag (post : AnswerPost) : Bool :=
  post.tags.any (fun tag => tag.slug_name == "from_teams")

/-- `TeamsService.findChannelsForPost` (`src/services/teamsService.ts`):
channels whose tag list is empty or meets the post's slug names; the default
channel (when configured) if none match. -/
def findChannelsForPost (cfg : TeamsConfig) (post : AnswerPost) :
    List ChannelMapping :=
  let postTagNames := post.tags.map (fun tag => tag.slug_name)
  let matchingChannels := cfg.channels.filter (fun channel =>
    channel.tags.length == 0
      || channel.tags.any (fun tag => postTagNames.contains tag))
  if matchingChannels.length == 0 then
    match cfg.defaultChannel with
    | some d => [d]
    | none => []
  else
    matchingChannels

/-- The `SentQuestion` recorded by `trackSentQuestion(post)` — called with no
`teamsMessageId` from `sendPostToTeams`. -/
def mkSentQuestion (post : AnswerPost) (now : Int) : SentQuestion :=
  { id := post.id, title := post.title, sentAt := now, teamsMessageId := none }

/-- `TeamsService.sendPostToTeams` (`src/services/teamsService.ts`) on its
success path, instrumented: returns the webhook deliveries made (one per
matched channel), the `trackSentQuestion` call performed after all deliveries
succeed (`none` when no channel matched, in which case the function returns
early without tracking), and the updated tracker store. -/
def sendPostToTeams (cfg : TeamsConfig) (store : SentStore) (now : Int)
    (post : AnswerPost) :
    List (AnswerPost × ChannelMapping) × Option SentQuestion × SentStore :=
  let channels := findChannelsForPost cfg post
  if channels.length == 0 then
    ([], none, store)
  else
    (channels.map (fun c => (post, c)),
     some (mkSentQuestion post now),
     trackSentQuestion store post now none)

/-- The `for (const post of newPosts)` loop of `PostMonitor.checkForNewPosts`
(`src/monitor.ts`), instrumented: posts carrying the `from_teams` tag are
skipped (`continue`); each remaining post goes through `sendPostToTeams`.
Returns the accumulated webhook deliveries, the list of `trackSentQuestion`
calls in order, and the final tracker store. -/
def processNewPosts (cfg : TeamsConfig) (now : Int) :
    List AnswerPost → SentStore →
      List (AnswerPost × ChannelMapping) × List SentQuestion × SentStore
  | [], store => ([], [], store)
  | post :: restPosts, store =>
    if hasFromTeamsTag post then
      processNewPosts cfg now restPosts store
    else
      let sendResult := sendPostToTeams cfg store now post
      let tailResult := processNewPosts cfg now restPosts sendResult.2.2
      (sendResult.1 ++ tailResult.1,
       sendResult.2.1.toList ++ tailResult.2.1,
       tailResult.2.2)

/-- The default `CHECK_INTERVAL_MS` of `src/config/config.ts`
(`parseInt(process.env.CHECK_INTERVAL_MS || "30000", 10)`). -/
def defaultCheckIntervalMs : Nat := 30000

/-- The periodic-cleanup gate of `PostMonitor.checkForNewPosts`
(`src/monitor.ts`): `clearOldQuestions` runs when
`Math.floor(Date.now() / (config.monitoring.checkIntervalMs * 10)) % 10 === 0`.
`Date.now()` is non-negative, so `Math.floor` of the quotient is `Nat`
division. -/
def cleanupDecision (checkIntervalMs nowMs : Nat) : Bool :=
  nowMs / (checkIntervalMs * 10) % 10 == 0

/-! ## Concrete demonstration data -/

/-- A minimal well-formed post with a given id, used for concrete instances. -/
def demoPost (i : String) : AnswerPost :=
  { id := i, title := "title " ++ i, description := "", created_at := 0,
    operatorUsername := "user", tags := [] }

/-- A concrete sweep instant: two hours past epoch. -/
def demoNow : Int := 7200000

/-- A concrete entry recorded two hours before `demoNow`. -/
def entryTwoHours : String × SentQuestion :=
  ("q2h", { id := "q2h", title := "two hours stale", sentAt := 0,
            teamsMessageId := none })

/-- A concrete entry recorded thirty minutes before `demoNow`. -/
def entryThirtyMin : String × SentQuestion :=
  ("q30", { id := "q30", title := "thirty minutes fresh", sentAt := 5400000,
            teamsMessageId := none })

/-- One hundred and one `trackSentQuestion` calls with distinct post ids
`p0 … p100` and strictly increasing `sentAt`, starting from the empty store. -/
def insertDistinct (n : Nat) : SentStore :=
  (List.range n).foldl
    (fun st i =>
      trackSentQuestion st (demoPost ("p" ++ Nat.repr i)) (Int.ofNat i) none)
    []

/-- A concrete full store: one hundred entries with distinct keys and
increasing `sentAt`. -/
def bigStore : SentStore :=
  (List.range 100).map
    (fun i => ("p" ++ Nat.repr i,
      { id := "p" ++ Nat.repr i, title := "t", sentAt := Int.ofNat i,
        teamsMessageId := none }))

/-- A concrete default channel. -/
def demoChannel : ChannelMapping :=
  { tags := [], webhookUrl := "https://example", channelName := "Default" }

/-- A concrete channel configuration with only a default channel. -/
def demoConfig : TeamsConfig :=
  { defaultChannel := some demoChannel, channels := [] }

/-- A concrete post carrying the loop-breaker tag. -/
def taggedPost : AnswerPost :=
  { id := "tagged", title := "from chat", description := "",
    created_at := 0, operatorUsername := "bot",
    tags := [{ display_name := "from_teams", slug_name := "from_teams" }] }

/-! ## New-post detector lemmas -/

/-- The collected prefix stops exactly at the first occurrence of the baseline:
it is an initial segment of the page, free of the baseline id, and the next
page element (which exists when the baseline occurs in the page) carries the
baseline id. -/
lemma collectNewPosts_spec (b : String) :
    ∀ posts : List AnswerPost, (∃ p ∈ posts, p.id = b) →
      ∃ rest, posts = collectNewPosts b posts ++ rest ∧
        (∀ p ∈ collectNewPosts b posts, p.id ≠ b) ∧
        rest.head?.map AnswerPost.id = some b
  | [], h => absurd h (by simp)
  | post :: posts, h => by
    by_cases hid : post.id = b
    · exact ⟨post :: posts, by simp [collectNewPosts, hid]⟩
    · obtain ⟨p, hp, hpb⟩ := h
      rcases List.mem_cons.mp hp with rfl | hmem
      · exact absurd hpb hid
      · obtain ⟨tail, h1, h2, h3⟩ := collectNewPosts_spec b posts ⟨p, hmem, hpb⟩
        refine ⟨tail, ?_, ?_, h3⟩
        · simpa [collectNewPosts, hid] using h1
        · intro q hq
          rw [collectNewPosts, if_neg hid] at hq
          rcases List.mem_cons.mp hq with rfl | hq
          · exact hid
          · exact h2 q hq

/-- With a set, non-empty baseline, the returned sequence is the collected
prefix. -/
lemma checkForNewPostsPure_fst (s : String) (posts : List AnswerPost)
    (hs : s ≠ "") :
    (checkForNewPostsPure (some s) posts).1 = collectNewPosts s posts := by
  simp only [checkForNewPostsPure, if_neg hs]
  split <;> rfl

/-- With a set, non-empty baseline and a non-empty collected prefix, the
baseline advances to the id of the first page element. -/
lemma checkForNewPostsPure_snd_pos (s : String) (posts : List AnswerPost)
    (hs : s ≠ "") (h : collectNewPosts s posts ≠ []) :
    (checkForNewPostsPure (some s) posts).2 = (posts.head?).map AnswerPost.id := by
  simp only [checkForNewPostsPure, if_neg hs]
  rw [if_pos (List.length_pos.mpr h)]

/-- With a set, non-empty baseline and an empty collected prefix, the baseline
is unchanged. -/
lemma checkForNewPostsPure_snd_nil (s : String) (posts : List AnswerPost)
    (hs : s ≠ "") (h : collectNewPosts s posts = []) :
    (checkForNewPostsPure (some s) posts).2 = some s := by
  simp only [checkForNewPostsPure, if_neg hs]
  rw [if_neg (by simp [h])]

/-- C1.  With a set baseline whose id occurs in the newest-first page, the
detector returns exactly the posts strictly preceding the baseline's first
occurrence, in input order (they form an initial segment of the page whose
next element is the baseline), and, when that prefix is non-empty, advances
the baseline to the id of the page's first element; in particular, with
baseline `P1` and page `[P3, P2, P1]` it returns `[P3, P2]` and the baseline
becomes `P3`.  The non-emptiness hypothesis on the baseline id reflects that a
set baseline is a post identifier (JavaScript truthiness sends an empty-string
baseline through the cold-start branch instead). -/
theorem checkForNewPosts_steadyState :
    (∀ (s : String) (posts : List AnswerPost), s ≠ "" →
      (∃ p ∈ posts, p.id = s) →
      ∃ rest,
        posts = (checkForNewPostsPure (some s) posts).1 ++ rest ∧
        (∀ p ∈ (checkForNewPostsPure (some s) posts).1, p.id ≠ s) ∧
        rest.head?.map AnswerPost.id = some s ∧
        ((checkForNewPostsPure (some s) posts).1 ≠ [] →
          (checkForNewPostsPure (some s) posts).2
            = (posts.head?).map AnswerPost.id)) ∧
    checkForNewPostsPure (some "P1") [demoPost "P3", demoPost "P2", demoPost "P1"]
      = ([demoPost "P3", demoPost "P2"], some "P3") := by
  constructor
  · intro s posts hs hocc
    obtain ⟨rest, h1, h2, h3⟩ := collectNewPosts_spec s posts hocc
    rw [checkForNewPostsPure_fst s posts hs]
    exact ⟨rest, h1, h2, h3, fun hne => checkForNewPostsPure_snd_pos s posts hs hne⟩
  · decide

/-- C1 witness: the general part applied to baseline `P1` and the concrete
page `[P3, P2, P1]`. -/
theorem checkForNewPosts_steadyState_witness :
    ∃ rest,
      [demoPost "P3", demoPost "P2", demoPost "P1"]
        = (checkForNewPostsPure (some "P1")
            [demoPost "P3", demoPost "P2", demoPost "P1"]).1 ++ rest ∧
      (∀ p ∈ (checkForNewPostsPure (some "P1")
          [demoPost "P3", demoPost "P2", demoPost "P1"]).1, p.id ≠ "P1") ∧
      rest.head?.map AnswerPost.id = some "P1" ∧
      ((checkForNewPostsPure (some "P1")
          [demoPost "P3", demoPost "P2", demoPost "P1"]).1 ≠ [] →
        (checkForNewPostsPure (some "P1")
            [demoPost "P3", demoPost "P2", demoPost "P1"]).2
          = ([demoPost "P3", demoPost "P2", demoPost "P1"].head?).map
              AnswerPost.id) :=
  checkForNewPosts_steadyState.1 "P1"
    [demoPost "P3", demoPost "P2", demoPost "P1"] (by decide)
    ⟨demoPost "P1", by decide, by decide⟩

/-- C2.  With an unset baseline (first poll after process start), the detector
returns the empty sequence on every page, and sets the baseline to the id of
the page's first element — leaving it unset when the page is empty — provided
the page's post ids are genuine (non-empty) identifiers. -/
theorem checkForNewPosts_coldStart :
    (∀ posts : List AnswerPost, (checkForNewPostsPure none posts).1 = []) ∧
    (∀ posts : List AnswerPost, (∀ p ∈ posts, p.id ≠ "") →
      (checkForNewPostsPure none posts).2 = (posts.head?).map AnswerPost.id) := by
  constructor
  · intro posts; rfl
  · intro posts h
    cases posts with
    | nil => rfl
    | cons p ps =>
      have hp : p.id ≠ "" := h p (List.mem_cons_self p ps)
      simp [checkForNewPostsPure, jsOrNull, hp]

/-- C2 witness: the baseline-setting part applied to a concrete two-post
page. -/
theorem checkForNewPosts_coldStart_witness :
    (checkForNewPostsPure none [demoPost "P3", demoPost "P2"]).2
      = ([demoPost "P3", demoPost "P2"].head?).map AnswerPost.id :=
  checkForNewPosts_coldStart.2 [demoPost "P3", demoPost "P2"] (by decide)

/-- C8.  The detector leaves a set (non-empty) baseline unchanged whenever it
collects no new posts; in particular, when the baseline equals the id of the
page's first element, it returns the empty sequence and the baseline is
unchanged. -/
theorem checkForNewPosts_frame :
    (∀ (s : String) (posts : List AnswerPost), s ≠ "" →
      (checkForNewPostsPure (some s) posts).1 = [] →
      (checkForNewPostsPure (some s) posts).2 = some s) ∧
    (∀ (s : String) (post : AnswerPost) (posts : List AnswerPost),
      s ≠ "" → post.id = s →
      checkForNewPostsPure (some s) (post :: posts) = ([], some s)) := by
  constructor
  · intro s posts hs hnil
    rw [checkForNewPostsPure_fst s posts hs] at hnil
    exact checkForNewPostsPure_snd_nil s posts hs hnil
  · intro s post posts hs hid
    have hcol : collectNewPosts s (post :: posts) = [] := by
      rw [collectNewPosts, if_pos hid]
    have h1 := checkForNewPostsPure_fst s (post :: posts) hs
    have h2 := checkForNewPostsPure_snd_nil s (post :: posts) hs hcol
    rw [hcol] at h1
    exact Prod.ext h1 h2

/-- C8 witness: baseline `P1` with pages `[P1]` and `[P1, P0]`. -/
theorem checkForNewPosts_frame_witness :
    checkForNewPostsPure (some "P1") [demoPost "P1"] = ([], some "P1") ∧
    checkForNewPostsPure (some "P1") [demoPost "P1", demoPost "P0"]
      = ([], some "P1") :=
  ⟨checkForNewPosts_frame.2 "P1" (demoPost "P1") [] (by decide) (by decide),
   checkForNewPosts_frame.2 "P1" (demoPost "P1") [demoPost "P0"] (by decide)
     (by decide)⟩

/-! ## Duplicate-lookup lemmas -/

/-- Characterisation of `isDuplicateMessage`: it answers `true` exactly when
some stored entry is at most ten minutes old relative to `now` and its stored
title is a substring of the candidate body. -/
lemma isDuplicateMessage_eq_true_iff (store : SentStore) (now : Int)
    (title body : String) :
    isDuplicateMessage store now title body = true ↔
      ∃ e ∈ store, ¬ now - e.2.sentAt > duplicateWindowMs ∧
        e.2.title.toList <:+: body.toList := by
  unfold isDuplicateMessage
  split
  · rename_i h
    have : store = [] := List.length_eq_zero.mp h
    subst this
    simp
  · rw [List.any_eq_true]
    constructor
    · rintro ⟨p, hp, hcond⟩
      by_cases hold : now - p.2.sentAt > duplicateWindowMs
      · rw [if_pos hold] at hcond
        exact absurd hcond (by simp)
      · rw [if_neg hold] at hcond
        exact ⟨p, hp, hold, of_decide_eq_true hcond⟩
    · rintro ⟨p, hp, hold, hsub⟩
      refine ⟨p, hp, ?_⟩
      rw [if_neg hold]
      exact decide_eq_true hsub

/-- C3.  `isDuplicateMessage` returns `true` if and only if the store contains
an entry whose `sentAt` lies within the last ten minutes of `now` (it is not
older than the ten-minute window) and whose stored title occurs as a substring
of the candidate body; in particular it returns `false` on the empty store. -/
theorem isDuplicateMessage_spec :
    (∀ (store : SentStore) (now : Int) (title body : String),
      isDuplicateMessage store now title body = true ↔
        ∃ e ∈ store, ¬ now - e.2.sentAt > duplicateWindowMs ∧
          e.2.title.toList <:+: body.toList) ∧
    (∀ (now : Int) (title body : String),
      isDuplicateMessage [] now title body = false) :=
  ⟨isDuplicateMessage_eq_true_iff, fun _ _ _ => rfl⟩

/-- C9.  The result of `isDuplicateMessage` does not depend on its candidate
title argument: only the candidate body is consulted. -/
theorem isDuplicateMessage_ignores_title :
    ∀ (store : SentStore) (now : Int) (t1 t2 body : String),
      isDuplicateMessage store now t1 body
        = isDuplicateMessage store now t2 body :=
  fun _ _ _ _ _ => rfl

/-- C10.  An entry recorded with an empty title that is still inside the
ten-minute window makes `isDuplicateMessage` answer `true` for every candidate
title and body, since the empty string is a substring of every string. -/
theorem emptyTitle_suppresses_all :
    ∀ (store : SentStore) (now : Int),
      (∃ e ∈ store, ¬ now - e.2.sentAt > duplicateWindowMs ∧ e.2.title = "") →
      ∀ title body : String,
        isDuplicateMessage store now title body = true := by
  rintro store now ⟨e, he, hw, ht⟩ title body
  refine (isDuplicateMessage_eq_true_iff store now title body).mpr
    ⟨e, he, hw, ?_⟩
  rw [ht]
  exact ⟨[], body.toList, by simp⟩

/-- C10 witness: a store holding a single fresh entry with an empty title
suppresses an arbitrary inbound message. -/
theorem emptyTitle_suppresses_all_witness :
    isDuplicateMessage [("q1", ⟨"q1", "", 0, none⟩)] 0 "unrelated title"
      "completely unrelated body" = true :=
  emptyTitle_suppresses_all [("q1", ⟨"q1", "", 0, none⟩)] 0
    ⟨("q1", ⟨"q1", "", 0, none⟩), by decide, by decide, rfl⟩
    "unrelated title" "completely unrelated body"

/-! ## Sweep (`clearOldQuestions`) lemmas -/

/-- In a store with pairwise-distinct keys (the `Map` representation
invariant), entries are determined by their key. -/
lemma eq_of_nodup_keys {l : SentStore} (hnd : (l.map Prod.fst).Nodup) :
    ∀ p ∈ l, ∀ q ∈ l, p.1 = q.1 → p = q := by
  induction l with
  | nil => intro p hp; cases hp
  | cons a l ih =>
    rw [List.map_cons, List.nodup_cons] at hnd
    obtain ⟨ha, hl⟩ := hnd
    intro p hp q hq hpq
    rcases List.mem_cons.mp hp with hpa | hp
    · rcases List.mem_cons.mp hq with hqa | hq
      · rw [hpa, hqa]
      · exact absurd (hpa ▸ hpq ▸ List.mem_map_of_mem Prod.fst hq) ha
    · rcases List.mem_cons.mp hq with hqa | hq
      · exact absurd (hqa ▸ hpq ▸ List.mem_map_of_mem Prod.fst hp) ha
      · exact ih hl p hp q hq hpq

/-- Membership after the delete-while-iterating fold of `clearOldQuestions`:
an entry survives exactly when it was in the accumulator and no visited stale
entry shares its key. -/
lemma mem_clearOldQuestions_foldl (now : Int) :
    ∀ (l acc : SentStore) (q : String × SentQuestion),
      (q ∈ l.foldl
          (fun acc p =>
            if p.2.sentAt < now - oneHourMs then mapDelete acc p.1 else acc)
          acc) ↔
        q ∈ acc ∧ ∀ p ∈ l, p.2.sentAt < now - oneHourMs → p.1 ≠ q.1
  | [], acc, q => by simp
  | p :: l, acc, q => by
    rw [List.foldl_cons]
    by_cases hp : p.2.sentAt < now - oneHourMs
    · rw [if_pos hp, mem_clearOldQuestions_foldl now l (mapDelete acc p.1) q]
      simp only [mapDelete, List.mem_filter, List.mem_cons, Bool.not_eq_true',
        beq_eq_false_iff_ne, ne_eq]
      constructor
      · rintro ⟨⟨hacc, hne⟩, hrest⟩
        refine ⟨hacc, fun r hr hold => ?_⟩
        rcases hr with rfl | hr
        · exact fun h => hne h.symm
        · exact hrest r hr hold
      · rintro ⟨hacc, hall⟩
        exact ⟨⟨hacc, fun h => hall p (Or.inl rfl) hp h.symm⟩,
          fun r hr hold => hall r (Or.inr hr) hold⟩
    · rw [if_neg hp, mem_clearOldQuestions_foldl now l acc q]
      simp only [List.mem_cons]
      constructor
      · rintro ⟨hacc, hrest⟩
        refine ⟨hacc, fun r hr hold => ?_⟩
        rcases hr with rfl | hr
        · exact absurd hold hp
        · exact hrest r hr hold
      · rintro ⟨hacc, hall⟩
        exact ⟨hacc, fun r hr hold => hall r (Or.inr hr) hold⟩

/-- C7.  `clearOldQuestions` deletes exactly the entries whose `sentAt` is
older than one hour before `now` and keeps every other entry (for stores with
the `Map` key-uniqueness invariant); an entry thirty minutes old survives the
sweep yet is not an eligible duplicate match (even against a body that
contains its title verbatim), while an entry two hours old is removed. -/
theorem clearOldQuestions_spec :
    (∀ (store : SentStore) (now : Int), (store.map Prod.fst).Nodup →
      ∀ q, q ∈ clearOldQuestions store now ↔
        q ∈ store ∧ ¬ q.2.sentAt < now - oneHourMs) ∧
    entryTwoHours ∉ clearOldQuestions [entryTwoHours, entryThirtyMin] demoNow ∧
    entryThirtyMin ∈ clearOldQuestions [entryTwoHours, entryThirtyMin] demoNow ∧
    isDuplicateMessage [entryThirtyMin] demoNow "any title"
      "echo of thirty minutes fresh" = false := by
  refine ⟨?_, by decide, by decide, by decide⟩
  intro store now hnd q
  rw [clearOldQuestions, mem_clearOldQuestions_foldl]
  constructor
  · rintro ⟨hq, hall⟩
    exact ⟨hq, fun hold => hall q hq hold rfl⟩
  · rintro ⟨hq, hnold⟩
    refine ⟨hq, fun p hp hold hpq => ?_⟩
    have hpqe := eq_of_nodup_keys hnd p hp q hq hpq
    exact hnold (hpqe ▸ hold)

/-- C7 witness: the characterisation applied to the concrete two-entry store
at `demoNow`, in the forward direction on the surviving entry. -/
theorem clearOldQuestions_spec_witness :
    entryThirtyMin ∈ [entryTwoHours, entryThirtyMin] ∧
    ¬ entryThirtyMin.2.sentAt < demoNow - oneHourMs :=
  (clearOldQuestions_spec.1 [entryTwoHours, entryThirtyMin] demoNow (by decide)
    entryThirtyMin).mp (by decide)

/-! ## Bounded-store (`trackSentQuestion`) lemmas -/

/-- The running minimum of the `oldestEntry` fold is the seed or a list
element. -/
lemma foldl_oldest_mem (l : List (String × SentQuestion)) :
    ∀ e : String × SentQuestion,
      l.foldl (fun acc p => if p.2.sentAt < acc.2.sentAt then p else acc) e = e ∨
      l.foldl (fun acc p => if p.2.sentAt < acc.2.sentAt then p else acc) e ∈ l := by
  induction l with
  | nil => intro e; exact Or.inl rfl
  | cons p l ih =>
    intro e
    rw [List.foldl_cons]
    by_cases h : p.2.sentAt < e.2.sentAt
    · rw [if_pos h]
      rcases ih p with h1 | h1
      · exact Or.inr (by rw [h1]; exact List.mem_cons_self p l)
      · exact Or.inr (List.mem_cons_of_mem p h1)
    · rw [if_neg h]
      rcases ih e with h1 | h1
      · exact Or.inl h1
      · exact Or.inr (List.mem_cons_of_mem p h1)

/-- The running minimum of the `oldestEntry` fold is below the seed and every
list element. -/
lemma foldl_oldest_min (l : List (String × SentQuestion)) :
    ∀ e : String × SentQuestion,
      (l.foldl (fun acc p => if p.2.sentAt < acc.2.sentAt then p else acc)
          e).2.sentAt ≤ e.2.sentAt ∧
      ∀ p ∈ l,
        (l.foldl (fun acc p => if p.2.sentAt < acc.2.sentAt then p else acc)
            e).2.sentAt ≤ p.2.sentAt := by
  induction l with
  | nil => intro e; exact ⟨le_refl _, by simp⟩
  | cons p l ih =>
    intro e
    rw [List.foldl_cons]
    by_cases h : p.2.sentAt < e.2.sentAt
    · rw [if_pos h]
      obtain ⟨h1, h2⟩ := ih p
      refine ⟨le_trans h1 (le_of_lt h), fun r hr => ?_⟩
      rcases List.mem_cons.mp hr with hrp | hr
      · exact hrp ▸ h1
      · exact h2 r hr
    · rw [if_neg h]
      obtain ⟨h1, h2⟩ := ih e
      refine ⟨h1, fun r hr => ?_⟩
      rcases List.mem_cons.mp hr with hrp | hr
      · exact hrp ▸ le_trans h1 (not_lt.mp h)
      · exact h2 r hr

/-- The oldest entry belongs to the store. -/
lemma oldestEntry_mem {store : SentStore} {e : String × SentQuestion}
    (h : oldestEntry store = some e) : e ∈ store := by
  cases store with
  | nil => cases h
  | cons a l =>
    rw [oldestEntry] at h
    injection h with h
    rcases foldl_oldest_mem l a with h1 | h1
    · rw [← h, h1]; exact List.mem_cons_self a l
    · exact List.mem_cons_of_mem a (h ▸ h1)

/-- The oldest entry has the minimal `sentAt` in the store. -/
lemma oldestEntry_min {store : SentStore} {e : String × SentQuestion}
    (h : oldestEntry store = some e) :
    ∀ p ∈ store, e.2.sentAt ≤ p.2.sentAt := by
  cases store with
  | nil => cases h
  | cons a l =>
    rw [oldestEntry] at h
    injection h with h
    obtain ⟨h1, h2⟩ := foldl_oldest_min l a
    intro p hp
    rcases List.mem_cons.mp hp with hpa | hp
    · exact hpa ▸ h ▸ h1
    · exact h ▸ h2 p hp

/-- A non-empty store has an oldest entry. -/
lemma oldestEntry_isSome {store : SentStore} (h : store ≠ []) :
    ∃ e, oldestEntry store = some e := by
  cases store with
  | nil => exact absurd rfl h
  | cons a l => exact ⟨_, rfl⟩

/-- `Map.set` grows the store by at most one entry. -/
lemma mapSet_length (store : SentStore) (k : String) (v : SentQuestion) :
    (mapSet store k v).length = store.length ∨
    (mapSet store k v).length = store.length + 1 := by
  unfold mapSet
  split
  · exact Or.inl (List.length_map store _)
  · exact Or.inr (by simp)

/-- Filtering out a present element strictly shrinks a list. -/
lemma length_filter_lt_of_mem {α : Type} {l : List α} {pred : α → Bool}
    {a : α} (ha : a ∈ l) (hpa : pred a = false) :
    (l.filter pred).length < l.length := by
  induction l with
  | nil => cases ha
  | cons b l ih =>
    rcases List.mem_cons.mp ha with hab | ha
    · have hpb : pred b = false := hab ▸ hpa
      rw [List.filter_cons, hpb]
      simp only [Bool.false_eq_true, if_false, List.length_cons]
      exact Nat.lt_succ_of_le (List.length_filter_le pred l)
    · rw [List.filter_cons]
      split
      · simpa using Nat.succ_lt_succ (ih ha)
      · exact Nat.lt_succ_of_lt (ih ha)

/-- Under the key-uniqueness invariant, deleting a present entry's key removes
exactly that entry. -/
lemma length_mapDelete_of_nodup {store : SentStore}
    {e : String × SentQuestion} (hnd : (store.map Prod.fst).Nodup)
    (he : e ∈ store) :
    (mapDelete store e.1).length + 1 = store.length := by
  induction store with
  | nil => cases he
  | cons b l ih =>
    rw [List.map_cons, List.nodup_cons] at hnd
    obtain ⟨hb, hl⟩ := hnd
    rcases List.mem_cons.mp he with heb | he
    · unfold mapDelete
      rw [List.filter_cons]
      have hfail : (!(b.1 == e.1)) = false := by simp [heb]
      rw [hfail]
      simp only [Bool.false_eq_true, if_false]
      have hkeep : l.filter (fun p => !(p.1 == e.1)) = l := by
        apply List.filter_eq_self.mpr
        intro p hp
        have hne : p.1 ≠ e.1 := fun hh =>
          hb (heb ▸ hh ▸ List.mem_map_of_mem Prod.fst hp)
        simp [hne]
      rw [hkeep, List.length_cons]
    · unfold mapDelete
      rw [List.filter_cons]
      have hbe : b.1 ≠ e.1 := fun hh =>
        hb (hh ▸ List.mem_map_of_mem Prod.fst he)
      have hpass : (!(b.1 == e.1)) = true := by simp [hbe]
      rw [hpass]
      simp only [List.length_cons]
      rw [← ih hl he]
      rfl

/-- `Map.set` preserves the key-uniqueness invariant. -/
lemma mapSet_keys_nodup {store : SentStore}
    (hnd : (store.map Prod.fst).Nodup) (k : String) (v : SentQuestion) :
    ((mapSet store k v).map Prod.fst).Nodup := by
  unfold mapSet
  split
  · have hkeys :
        (store.map (fun p => if p.1 == k then (k, v) else p)).map Prod.fst
          = store.map Prod.fst := by
      rw [List.map_map]
      apply List.map_congr_left
      intro p hp
      by_cases hpk : p.1 = k
      · simp [hpk]
      · simp [hpk]
    rw [hkeys]
    exact hnd
  · rename_i hnotin
    rw [List.map_append]
    rw [List.nodup_append]
    refine ⟨hnd, List.nodup_singleton k, ?_⟩
    intro x hx hxk
    rcases List.mem_map.mp hx with ⟨p, hp, hpx⟩
    rcases List.mem_singleton.mp hxk with rfl
    exact hnotin (List.any_eq_true.mpr ⟨p, hp, by simp [hpx]⟩)

/-- An over-cap store shrinks below the cap after the eviction step. -/
lemma evictIfOverCap_length_le {store1 : SentStore}
    (h : store1.length ≤ maxStoredQuestions + 1) :
    (evictIfOverCap store1).length ≤ maxStoredQuestions := by
  unfold evictIfOverCap
  by_cases hlen : store1.length > maxStoredQuestions
  · rw [if_pos hlen]
    have hne : store1 ≠ [] := by
      intro hnil
      rw [hnil] at hlen
      simp [maxStoredQuestions] at hlen
    obtain ⟨e, he⟩ := oldestEntry_isSome hne
    rw [he]
    have hlt : (mapDelete store1 e.1).length < store1.length := by
      unfold mapDelete
      apply length_filter_lt_of_mem (oldestEntry_mem he)
      simp
    show (mapDelete store1 e.1).length ≤ maxStoredQuestions
    omega
  · rw [if_neg hlen]
    omega

/-- When the store is over the cap, the eviction step deletes exactly one
entry, one of globally minimal `sentAt`. -/
lemma evictIfOverCap_of_over {store1 : SentStore}
    (hnd : (store1.map Prod.fst).Nodup)
    (h : store1.length > maxStoredQuestions) :
    ∃ e ∈ store1,
      evictIfOverCap store1 = mapDelete store1 e.1 ∧
      (evictIfOverCap store1).length + 1 = store1.length ∧
      ∀ p ∈ store1, e.2.sentAt ≤ p.2.sentAt := by
  have hne : store1 ≠ [] := by
    intro hnil
    rw [hnil] at h
    simp [maxStoredQuestions] at h
  obtain ⟨e, he⟩ := oldestEntry_isSome hne
  have heq : evictIfOverCap store1 = mapDelete store1 e.1 := by
    unfold evictIfOverCap
    rw [if_pos h, he]
  refine ⟨e, oldestEntry_mem he, heq, ?_, oldestEntry_min he⟩
  rw [heq]
  exact length_mapDelete_of_nodup hnd (oldestEntry_mem he)

/-- C4.  `trackSentQuestion` keeps the store at or below one hundred entries;
a call that pushes the size past the cap evicts exactly one entry, one of
globally minimal `sentAt` (under the `Map` key-uniqueness invariant); and
inserting one hundred and one entries with distinct post ids and increasing
timestamps leaves exactly the hundred youngest present, with the single
oldest (`p0`) absent. -/
theorem trackSentQuestion_cap :
    (∀ (store : SentStore) (post : AnswerPost) (now : Int)
        (mid : Option String),
      store.length ≤ maxStoredQuestions →
      (trackSentQuestion store post now mid).length ≤ maxStoredQuestions) ∧
    (∀ (store : SentStore) (post : AnswerPost) (now : Int)
        (mid : Option String),
      (store.map Prod.fst).Nodup →
      (mapSet store post.id
          { id := post.id, title := post.title, sentAt := now,
            teamsMessageId := mid }).length > maxStoredQuestions →
      ∃ e ∈ mapSet store post.id
          { id := post.id, title := post.title, sentAt := now,
            teamsMessageId := mid },
        trackSentQuestion store post now mid
          = mapDelete (mapSet store post.id
              { id := post.id, title := post.title, sentAt := now,
                teamsMessageId := mid }) e.1 ∧
        (trackSentQuestion store post now mid).length + 1
          = (mapSet store post.id
              { id := post.id, title := post.title, sentAt := now,
                teamsMessageId := mid }).length ∧
        ∀ p ∈ mapSet store post.id
            { id := post.id, title := post.title, sentAt := now,
              teamsMessageId := mid },
          e.2.sentAt ≤ p.2.sentAt) ∧
    (insertDistinct 101).map Prod.fst
      = (List.range 100).map (fun i => "p" ++ Nat.repr (i + 1)) ∧
    mapGet (insertDistinct 101) "p0" = none := by
  refine ⟨?_, ?_, by decide, by decide⟩
  · intro store post now mid h
    apply evictIfOverCap_length_le
    rcases mapSet_length store post.id
      { id := post.id, title := post.title, sentAt := now,
        teamsMessageId := mid } with h1 | h1 <;> omega
  · intro store post now mid hnd hover
    exact evictIfOverCap_of_over (mapSet_keys_nodup hnd _ _) hover

/-- C4 witness: the cap bound applied to the empty store, and the eviction
characterisation applied to a concrete full store receiving a fresh id. -/
theorem trackSentQuestion_cap_witness :
    (trackSentQuestion [] (demoPost "p0") 0 none).length
      ≤ maxStoredQuestions ∧
    ∃ e ∈ mapSet bigStore (demoPost "q").id
        { id := (demoPost "q").id, title := (demoPost "q").title,
          sentAt := 200, teamsMessageId := none },
      trackSentQuestion bigStore (demoPost "q") 200 none
        = mapDelete (mapSet bigStore (demoPost "q").id
            { id := (demoPost "q").id, title := (demoPost "q").title,
              sentAt := 200, teamsMessageId := none }) e.1 ∧
      (trackSentQuestion bigStore (demoPost "q") 200 none).length + 1
        = (mapSet bigStore (demoPost "q").id
            { id := (demoPost "q").id, title := (demoPost "q").title,
              sentAt := 200, teamsMessageId := none }).length ∧
      ∀ p ∈ mapSet bigStore (demoPost "q").id
          { id := (demoPost "q").id, title := (demoPost "q").title,
            sentAt := 200, teamsMessageId := none },
        e.2.sentAt ≤ p.2.sentAt :=
  ⟨trackSentQuestion_cap.1 [] (demoPost "p0") 0 none (by decide),
   trackSentQuestion_cap.2.1 bigStore (demoPost "q") 200 none (by decide)
     (by decide)⟩

/-! ## Monitor-cycle lemmas -/

/-- With a default channel configured, channel selection never comes back
empty. -/
lemma findChannelsForPost_ne_nil {cfg : TeamsConfig}
    (hdef : cfg.defaultChannel.isSome) (post : AnswerPost) :
    findChannelsForPost cfg post ≠ [] := by
  obtain ⟨d, hd⟩ := Option.isSome_iff_exists.mp hdef
  simp only [findChannelsForPost, hd]
  split
  · simp
  · rename_i hcond
    intro hnil
    rw [hnil] at hcond
    simp at hcond

/-- Characterisation of the webhook deliveries of a monitor cycle: a
`(post, channel)` delivery happens exactly for the posts of the page that do
not carry the `from_teams` tag, once per selected channel. -/
lemma processNewPosts_events (cfg : TeamsConfig) (now : Int) :
    ∀ (posts : List AnswerPost) (store : SentStore) (p : AnswerPost)
      (c : ChannelMapping),
      ((p, c) ∈ (processNewPosts cfg now posts store).1 ↔
        p ∈ posts ∧ hasFromTeamsTag p = false ∧ c ∈ findChannelsForPost cfg p)
  | [], store, p, c => by simp [processNewPosts]
  | post :: posts, store, p, c => by
    by_cases htag : hasFromTeamsTag post
    · rw [processNewPosts, if_pos htag,
        processNewPosts_events cfg now posts store p c]
      constructor
      · rintro ⟨hp, hnt, hc⟩
        exact ⟨List.mem_cons_of_mem _ hp, hnt, hc⟩
      · rintro ⟨hp, hnt, hc⟩
        rcases List.mem_cons.mp hp with hpp | hp
        · rw [hpp, htag] at hnt
          cases hnt
        · exact ⟨hp, hnt, hc⟩
    · rw [processNewPosts]
      simp only [if_neg htag, List.mem_append]
      rw [processNewPosts_events cfg now posts
        (sendPostToTeams cfg store now post).2.2 p c]
      have hnottag : hasFromTeamsTag post = false := by simpa using htag
      by_cases hch : (findChannelsForPost cfg post).length = 0
      · have hnil : findChannelsForPost cfg post = [] :=
          List.length_eq_zero.mp hch
        have hfst : (sendPostToTeams cfg store now post).1 = [] := by
          unfold sendPostToTeams
          rw [if_pos (by simp [hch])]
        rw [hfst]
        simp only [List.not_mem_nil, false_or, List.mem_cons]
        constructor
        · rintro ⟨hp, hnt, hc⟩
          exact ⟨Or.inr hp, hnt, hc⟩
        · rintro ⟨hp, hnt, hc⟩
          rcases hp with hpp | hp
          · rw [hpp, hnil] at hc
            cases hc
          · exact ⟨hp, hnt, hc⟩
      · have hfst : (sendPostToTeams cfg store now post).1
            = (findChannelsForPost cfg post).map (fun ch => (post, ch)) := by
          unfold sendPostToTeams
          rw [if_neg (by simp [hch])]
        rw [hfst]
        simp only [List.mem_map, List.mem_cons, Prod.mk.injEq]
        constructor
        · rintro (⟨ch, hchmem, hpost, hchc⟩ | ⟨hp, hnt, hc⟩)
          · refine ⟨Or.inl hpost.symm, ?_, ?_⟩
            · rw [← hpost]
              exact hnottag
            · rw [← hpost, ← hchc]
              exact hchmem
          · exact ⟨Or.inr hp, hnt, hc⟩
        · rintro ⟨hp, hnt, hc⟩
          rcases hp with hpp | hp
          · refine Or.inl ⟨c, ?_, hpp.symm, rfl⟩
            rw [← hpp]
            exact hc
          · exact Or.inr ⟨hp, hnt, hc⟩

/-- Characterisation of the `trackSentQuestion` calls of a monitor cycle: a
recording happens exactly for the untagged posts of the page for which some
channel was selected. -/
lemma processNewPosts_recorded (cfg : TeamsConfig) (now : Int) :
    ∀ (posts : List AnswerPost) (store : SentStore) (q : SentQuestion),
      (q ∈ (processNewPosts cfg now posts store).2.1 ↔
        ∃ p ∈ posts, hasFromTeamsTag p = false ∧
          findChannelsForPost cfg p ≠ [] ∧ q = mkSentQuestion p now)
  | [], store, q => by simp [processNewPosts]
  | post :: posts, store, q => by
    by_cases htag : hasFromTeamsTag post
    · rw [processNewPosts, if_pos htag,
        processNewPosts_recorded cfg now posts store q]
      constructor
      · rintro ⟨p, hp, hrest⟩
        exact ⟨p, List.mem_cons_of_mem _ hp, hrest⟩
      · rintro ⟨p, hp, hnt, hrest⟩
        rcases List.mem_cons.mp hp with hpp | hp
        · rw [hpp, htag] at hnt
          cases hnt
        · exact ⟨p, hp, hnt, hrest⟩
    · rw [processNewPosts]
      simp only [if_neg htag, List.mem_append]
      rw [processNewPosts_recorded cfg now posts
        (sendPostToTeams cfg store now post).2.2 q]
      by_cases hch : (findChannelsForPost cfg post).length = 0
      · have hnil : findChannelsForPost cfg post = [] :=
          List.length_eq_zero.mp hch
        have hrec : (sendPostToTeams cfg store now post).2.1 = none := by
          unfold sendPostToTeams
          rw [if_pos (by simp [hch])]
        rw [hrec]
        simp only [Option.toList_none, List.not_mem_nil, false_or]
        constructor
        · rintro ⟨p, hp, hrest⟩
          exact ⟨p, List.mem_cons_of_mem _ hp, hrest⟩
        · rintro ⟨p, hp, hnt, hne, hq⟩
          rcases List.mem_cons.mp hp with hpp | hp
          · rw [hpp, hnil] at hne
            exact absurd rfl hne
          · exact ⟨p, hp, hnt, hne, hq⟩
      · have hrec : (sendPostToTeams cfg store now post).2.1
            = some (mkSentQuestion post now) := by
          unfold sendPostToTeams
          rw [if_neg (by simp [hch])]
        rw [hrec]
        simp only [Option.toList_some, List.mem_singleton]
        constructor
        · rintro (hq | ⟨p, hp, hrest⟩)
          · exact ⟨post, List.mem_cons_self post posts, by simpa using htag,
              fun hnil => hch (by rw [hnil]; rfl), hq⟩
          · exact ⟨p, List.mem_cons_of_mem _ hp, hrest⟩
        · rintro ⟨p, hp, hnt, hne, hq⟩
          rcases List.mem_cons.mp hp with hpp | hp
          · exact Or.inl (by rw [hq, hpp])
          · exact Or.inr ⟨p, hp, hnt, hne, hq⟩

/-- C5.  In a monitor cycle over the detected new posts: a webhook delivery
happens exactly for the posts without the `from_teams` loop-breaker tag (once
per selected channel); a `trackSentQuestion` recording happens exactly for the
untagged posts with a selected channel — so tagged posts are neither forwarded
nor recorded; and, with a default channel configured, every untagged detected
post is both forwarded to some channel and recorded. -/
theorem monitor_loopBreaker :
    (∀ (cfg : TeamsConfig) (now : Int) (posts : List AnswerPost)
        (store : SentStore) (p : AnswerPost) (c : ChannelMapping),
      (p, c) ∈ (processNewPosts cfg now posts store).1 ↔
        p ∈ posts ∧ hasFromTeamsTag p = false ∧
          c ∈ findChannelsForPost cfg p) ∧
    (∀ (cfg : TeamsConfig) (now : Int) (posts : List AnswerPost)
        (store : SentStore) (q : SentQuestion),
      q ∈ (processNewPosts cfg now posts store).2.1 ↔
        ∃ p ∈ posts, hasFromTeamsTag p = false ∧
          findChannelsForPost cfg p ≠ [] ∧ q = mkSentQuestion p now) ∧
    (∀ (cfg : TeamsConfig) (now : Int) (posts : List AnswerPost)
        (store : SentStore) (p : AnswerPost),
      cfg.defaultChannel.isSome → p ∈ posts → hasFromTeamsTag p = false →
      (∃ c, (p, c) ∈ (processNewPosts cfg now posts store).1) ∧
        mkSentQuestion p now ∈ (processNewPosts cfg now posts store).2.1) := by
  refine ⟨fun cfg now posts store p c =>
      processNewPosts_events cfg now posts store p c,
    fun cfg now posts store q =>
      processNewPosts_recorded cfg now posts store q, ?_⟩
  intro cfg now posts store p hdef hp hnt
  have hne := findChannelsForPost_ne_nil hdef p
  obtain ⟨c, hc⟩ := List.exists_mem_of_ne_nil _ hne
  constructor
  · exact ⟨c, (processNewPosts_events cfg now posts store p c).mpr ⟨hp, hnt, hc⟩⟩
  · exact (processNewPosts_recorded cfg now posts store
      (mkSentQuestion p now)).mpr ⟨p, hp, hnt, hne, rfl⟩

/-- C5 witness: with a default channel, in a page holding one tagged and one
untagged post, the untagged post is delivered somewhere and recorded. -/
theorem monitor_loopBreaker_witness :
    (∃ c, (demoPost "plain", c)
        ∈ (processNewPosts demoConfig 0 [taggedPost, demoPost "plain"] []).1) ∧
    mkSentQuestion (demoPost "plain") 0
      ∈ (processNewPosts demoConfig 0 [taggedPost, demoPost "plain"] []).2.1 :=
  monitor_loopBreaker.2.2 demoConfig 0 [taggedPost, demoPost "plain"] []
    (demoPost "plain") (by decide) (by decide) (by decide)

/-! ## Periodic-cleanup gate -/

/-- C6 counterexample material.  The gate of `PostMonitor.checkForNewPosts` is
a function of the wall clock alone: at the default thirty-second interval it
fires throughout the first ten cycles after the epoch of its clock
(`Date.now() < 300000`) and stays silent for the following ninety
(`300000 ≤ Date.now() < 3000000`) — two checks with the same cycle index but
different clock values decide differently, and the gate is not `true` exactly
on every tenth cycle. -/
theorem cleanupDecision_wall_clock :
    cleanupDecision defaultCheckIntervalMs 0 = true ∧
    cleanupDecision defaultCheckIntervalMs 300000 = false ∧
    (∀ n : Nat, n < 300000 → cleanupDecision defaultCheckIntervalMs n = true) ∧
    (∀ n : Nat, 300000 ≤ n → n < 3000000 →
      cleanupDecision defaultCheckIntervalMs n = false) := by
  refine ⟨by decide, by decide, ?_, ?_⟩
  · intro n h
    have hdiv : n / (defaultCheckIntervalMs * 10) = 0 :=
      Nat.div_eq_of_lt (by simpa [defaultCheckIntervalMs] using h)
    simp [cleanupDecision, hdiv]
  · intro n h1 h2
    have h10 : defaultCheckIntervalMs * 10 = 300000 := by norm_num [defaultCheckIntervalMs]
    have hge : 1 ≤ n / 300000 := (Nat.one_le_div_iff (by norm_num)).mpr h1
    have hlt : n / 300000 < 10 := Nat.div_lt_of_lt_mul (by omega)
    have hmod : n / 300000 % 10 = n / 300000 := Nat.mod_eq_of_lt hlt
    simp only [cleanupDecision, h10, hmod]
    simp only [beq_eq_false_iff_ne, ne_eq]
    omega

/-- C6 witness: the gate evaluated at the last clock value of the always-fire
window and at one inside the silent stretch. -/
theorem cleanupDecision_wall_clock_witness :
    cleanupDecision defaultCheckIntervalMs 299999 = true ∧
    cleanupDecision defaultCheckIntervalMs 2999999 = false :=
  ⟨cleanupDecision_wall_clock.2.2.1 299999 (by norm_num),
   cleanupDecision_wall_clock.2.2.2 2999999 (by norm_num) (by norm_num)⟩

end AnswersBridge
